import Mathlib

/-!
Verification of the anchor-generation and input-composition pipeline
(package mask, mask.go; package tensor, image-to-tensor utilities).

Conventions of the embedding:
* Go float32 arithmetic is modelled over ℝ where square roots occur
  (anchor geometry) and over ℚ where the arithmetic is rational
  (pixel normalisation, metadata).
* Go uint32 channel samples are modelled as ℕ; the right shift by 8 is
  Nat.shiftRight.
* Go image.Rectangle is the Rect structure below; Dx and Dy follow Go.
* A Go for-loop with a float counter that starts at 0 and increases by a
  constant step d while below a bound is modelled two ways: loopVals is
  the fuel-indexed small-step execution of the loop (a result of none
  means the fuel ran out, i.e. the loop had not yet terminated), and
  loopCount is the closed-form number of iterations for a positive step.
  The bridge lemma loopVals_eq_range proves the two agree whenever the
  loop terminates with a positive step.
* Go code that can panic (out-of-range slice indexing) returns Option:
  none is the panic.
-/

/-! ## Geometry: Go image.Rectangle -/

/-- Go image.Rectangle: Min and Max points, as four integer coordinates. -/
structure Rect where
  minX : ℤ
  minY : ℤ
  maxX : ℤ
  maxY : ℤ

/-- Go Rectangle.Dx: width of the rectangle. -/
def Rect.dx (r : Rect) : ℤ := r.maxX - r.minX

/-- Go Rectangle.Dy: height of the rectangle. -/
def Rect.dy (r : Rect) : ℤ := r.maxY - r.minY

/-! ## Pixel normalisation (mask.go convert, tensor convertTF / convertCaffe) -/

/-- mask.go convert (identical to tensor convertTF): take a 16-bit-scaled
channel sample, shift right by 8 to an 8-bit value, centre and scale:
(float32(value shifted right 8) - 127.5) / 127.5. -/
def convert (value : ℕ) : ℚ := (((value >>> 8 : ℕ) : ℚ) - 127.5) / 127.5

/-- tensor convertCaffe: the 8-bit channel value as a float, no scaling. -/
def convertCaffe (value : ℕ) : ℚ := ((value >>> 8 : ℕ) : ℚ)

/-- tensor imageToTensorCaffe: a 224 by 224 grid; at pixel (i, j) with RGBA
samples (r, g, b) the three channels are convertCaffe b - 103.939,
convertCaffe g - 116.779, convertCaffe r - 123.68 in that order.
The image is a function from coordinates to the (r, g, b) samples. -/
def imageToTensorCaffe (img : ℕ → ℕ → ℕ × ℕ × ℕ) : List (List (ℚ × ℚ × ℚ)) :=
  (List.range 224).map fun i =>
    (List.range 224).map fun j =>
      (convertCaffe (img i j).2.2 - 103.939,
       convertCaffe (img i j).2.1 - 116.779,
       convertCaffe (img i j).1 - 123.68)

/-! ## Metadata composition (mask.go composeImageMeta) -/

/-- mask.go composeImageMeta: the single row of the metadata tensor,
in the exact append order of the source:
image id; original Dy, Dx, 3; resized Dy, Dx, 3; window Min.Y, Min.X,
Max.Y, Max.X; scale; then numClasses zeros. -/
def composeImageMeta (imageID : ℤ) (originalBounds resizedBounds window : Rect)
    (scale : ℚ) (numClasses : ℕ) : List ℚ :=
  [(imageID : ℚ),
   (originalBounds.dy : ℚ), (originalBounds.dx : ℚ), 3,
   (resizedBounds.dy : ℚ), (resizedBounds.dx : ℚ), 3,
   (window.minY : ℚ), (window.minX : ℚ), (window.maxY : ℚ), (window.maxX : ℚ),
   scale] ++ List.replicate numClasses 0

/-! ## Loop model for the float-counter for-loops of generateAnchors -/

/-- Small-step execution of the Go loop
for j := 0; j < bound; j += d, with explicit fuel. The result is the
list of counter values the loop visits; none means the fuel was
exhausted before the loop guard failed. -/
def loopVals (bound d : ℚ) : ℚ → ℕ → Option (List ℚ)
  | j, 0 => if bound ≤ j then some [] else none
  | j, fuel + 1 =>
    if bound ≤ j then some []
    else (loopVals bound d (j + d) fuel).map (j :: ·)

/-- Closed-form iteration count of the loop of loopVals when the step is
positive; 0 is returned for a non-positive step (where the Go loop either
runs zero times, when the bound is non-positive, or never terminates). -/
def loopCount (bound d : ℚ) : ℕ :=
  if 0 < d then (⌈bound / d⌉).toNat else 0

/-! ## Anchor generation (mask.go) -/

/-- An anchor box (y1, x1, y2, x2) in resized-image pixel coordinates. -/
abbrev Box := ℝ × ℝ × ℝ × ℝ

/-- The box the loop body of generateAnchors appends for counter values
j and i and aspect ratio r: height = scales / sqrt r, width =
scales * sqrt r, and the box is
(j * featureStride - 0.5 * height, i * featureStride - 0.5 * width,
 j * featureStride + 0.5 * height, i * featureStride + 0.5 * width). -/
noncomputable def anchorBox (scales : ℤ) (r : ℝ) (featureStride : ℤ) (j i : ℝ) : Box :=
  (j * (featureStride : ℝ) - 0.5 * ((scales : ℝ) / Real.sqrt r),
   i * (featureStride : ℝ) - 0.5 * ((scales : ℝ) * Real.sqrt r),
   j * (featureStride : ℝ) + 0.5 * ((scales : ℝ) / Real.sqrt r),
   i * (featureStride : ℝ) + 0.5 * ((scales : ℝ) * Real.sqrt r))

/-- mask.go generateAnchors. The source reads ratios at indices 0, 1 and 2
unconditionally (a panic, hence none, when the slice is shorter), then runs
two nested for-loops over the feature map, j over shape[0] and i over
shape[1], both stepping by anchorStride, and an inner loop over k < 3;
each visited cell appends the three boxes of anchorBox at the three
ratios. The counter value after n steps is n * anchorStride; the list of
visited counter values for a positive step is justified against the
small-step loop model by loopVals_eq_range below. -/
noncomputable def generateAnchors (scales : ℤ) (ratios : List ℝ) (shape : ℚ × ℚ)
    (featureStride : ℤ) (anchorStride : ℤ) : Option (List Box) :=
  match ratios with
  | r0 :: r1 :: r2 :: _ =>
    some ((List.range (loopCount shape.1 (anchorStride : ℚ))).flatMap fun jn =>
      (List.range (loopCount shape.2 (anchorStride : ℚ))).flatMap fun im =>
        [r0, r1, r2].map fun r =>
          anchorBox scales r featureStride
            ((jn : ℝ) * (anchorStride : ℝ)) ((im : ℝ) * (anchorStride : ℝ)))
  | _ => none

/-- mask.go generatePyramidAnchors: for each index i into scales, run
generateAnchors with scales[i], featureShapes[i] and featureStrides[i],
and append the per-level results in order. Indexing featureShapes or
featureStrides out of range is a panic, hence none. -/
noncomputable def generatePyramidAnchors : List ℤ → List ℝ → List (ℚ × ℚ) → List ℤ → ℤ →
    Option (List Box)
  | [], _, _, _, _ => some []
  | s :: srest, ratios, sh :: shrest, st :: strest, anchorStride => do
    let level ← generateAnchors s ratios sh st anchorStride
    let rest ← generatePyramidAnchors srest ratios shrest strest anchorStride
    pure (level ++ rest)
  | _ :: _, _, _, _, _ => none

/-- mask.go computeBackboneShapes: for each backbone stride s, the pair
(ceil(Dy / s), ceil(Dx / s)) of the image bounds. -/
def computeBackboneShapes (imageBounds : Rect) (backboneStrides : List ℤ) :
    List (ℚ × ℚ) :=
  backboneStrides.map fun s : ℤ =>
    (((⌈(imageBounds.dy : ℚ) / (s : ℚ)⌉ : ℤ) : ℚ),
     ((⌈(imageBounds.dx : ℚ) / (s : ℚ)⌉ : ℤ) : ℚ))

/-- mask.go getAnchors: the fixed configuration of the pipeline —
backbone strides 4, 8, 16, 32, 64; anchor scales 32, 64, 128, 256, 512;
anchor ratios 0.5, 1, 2; anchor stride 1. -/
noncomputable def getAnchors (imageBounds : Rect) : Option (List Box) :=
  generatePyramidAnchors [32, 64, 128, 256, 512] [0.5, 1, 2]
    (computeBackboneShapes imageBounds [4, 8, 16, 32, 64])
    [4, 8, 16, 32, 64] 1

/-- mask.go makeInputs, third return value: the tensor the orchestrator
hands to the inference engine as input_anchors. The source builds it from
the resized image's bounds as the single row
(Min.Y, Min.X, Max.Y, Max.X) — the window rectangle — and returns it in
the anchors position; getAnchors is never called. -/
def makeInputsAnchorsTensor (resizedBounds : Rect) : List (List ℚ) :=
  [[(resizedBounds.minY : ℚ), (resizedBounds.minX : ℚ),
    (resizedBounds.maxY : ℚ), (resizedBounds.maxX : ℚ)]]

/-! ## Lemmas about the loop model -/

/-- The loop guard fails at counter value m * d exactly when m iterations
have already run, for a positive step. -/
lemma loopCount_le_iff (bound d : ℚ) (hd : 0 < d) (m : ℕ) :
    bound ≤ (m : ℚ) * d ↔ loopCount bound d ≤ m := by
  rw [loopCount, if_pos hd, Int.toNat_le, Int.ceil_le, div_le_iff₀ hd]
  norm_cast

/-- The loop terminates whenever enough fuel is supplied: from counter j,
fuel steps of size d push the counter past any bound that is at most
j + fuel * d. -/
lemma loopVals_total (bound d : ℚ) :
    ∀ (fuel : ℕ) (j : ℚ), bound ≤ j + fuel * d →
      ∃ js, loopVals bound d j fuel = some js := by
  intro fuel
  induction fuel with
  | zero =>
    intro j h
    refine ⟨[], ?_⟩
    simp only [loopVals]
    rw [if_pos (by push_cast at h; linarith)]
  | succ fuel ih =>
    intro j h
    by_cases hg : bound ≤ j
    · exact ⟨[], by simp only [loopVals]; rw [if_pos hg]⟩
    · obtain ⟨js, hjs⟩ := ih (j + d) (by push_cast at h ⊢; linarith)
      refine ⟨j :: js, ?_⟩
      simp only [loopVals]
      rw [if_neg hg, hjs]
      rfl

/-- With a non-positive step and a positive bound, the loop never
terminates: no amount of fuel reaches the guard from any non-positive
starting counter. -/
lemma loopVals_none (bound d : ℚ) (hd : d ≤ 0) (hb : 0 < bound) :
    ∀ (fuel : ℕ) (j : ℚ), j ≤ 0 → loopVals bound d j fuel = none := by
  intro fuel
  induction fuel with
  | zero =>
    intro j hj
    simp only [loopVals]
    rw [if_neg (by linarith)]
  | succ fuel ih =>
    intro j hj
    simp only [loopVals]
    rw [if_neg (by linarith), ih (j + d) (by linarith)]
    rfl

/-- Bridge between the small-step loop and its closed form: for a positive
step, a terminating run starting at counter m * d visits exactly the
counter values n * d for n from m up to loopCount. -/
lemma loopVals_eq_range (bound d : ℚ) (hd : 0 < d) :
    ∀ (fuel m : ℕ) (js : List ℚ),
      loopVals bound d ((m : ℚ) * d) fuel = some js →
      js = (List.range (loopCount bound d - m)).map (fun n => ((m + n : ℕ) : ℚ) * d) := by
  intro fuel
  induction fuel with
  | zero =>
    intro m js h
    simp only [loopVals] at h
    by_cases hg : bound ≤ (m : ℚ) * d
    · rw [if_pos hg] at h
      rw [Nat.sub_eq_zero_of_le ((loopCount_le_iff bound d hd m).mp hg)]
      simpa using h.symm
    · rw [if_neg hg] at h
      exact absurd h (by simp)
  | succ fuel ih =>
    intro m js h
    simp only [loopVals] at h
    by_cases hg : bound ≤ (m : ℚ) * d
    · rw [if_pos hg] at h
      rw [Nat.sub_eq_zero_of_le ((loopCount_le_iff bound d hd m).mp hg)]
      simpa using h.symm
    · rw [if_neg hg] at h
      rw [Option.map_eq_some'] at h
      obtain ⟨tl, htl, rfl⟩ := h
      have hstep : (m : ℚ) * d + d = ((m + 1 : ℕ) : ℚ) * d := by push_cast; ring
      rw [hstep] at htl
      have htl' := ih (m + 1) tl htl
      have hm : m < loopCount bound d := by
        by_contra hcon
        push_neg at hcon
        exact hg ((loopCount_le_iff bound d hd m).mpr hcon)
      have hsub : loopCount bound d - m = (loopCount bound d - (m + 1)) + 1 := by omega
      subst htl'
      rw [hsub, List.range_succ_eq_map, List.map_cons, List.map_map]
      congr 1
      refine List.map_congr_left fun n _ => ?_
      simp only [Function.comp_apply]
      have hn : m + 1 + n = m + Nat.succ n := by omega
      rw [hn]

/-- Length of a flatMap over a range when every inner list has the same
length. -/
lemma flatMap_range_length {α : Type} (f : ℕ → List α) (n m : ℕ)
    (hf : ∀ i, (f i).length = m) :
    ((List.range n).flatMap f).length = n * m := by
  rw [List.length_flatMap]
  have hmap : List.map (List.length ∘ f) (List.range n) = List.replicate n m := by
    have hcf : (List.length ∘ f) = Function.const ℕ m := funext fun i => hf i
    rw [hcf, List.map_const, List.length_range]
  rw [hmap, List.sum_replicate, smul_eq_mul]

/-- Positional indexing of a flatMap over a range when every inner list
has the same length m: position q * m + r lands in block q at offset r. -/
lemma flatMap_range_getElem? {α : Type} (f : ℕ → List α) (m : ℕ)
    (hf : ∀ i, (f i).length = m) :
    ∀ (n q r : ℕ), q < n → r < m →
      ((List.range n).flatMap f)[q * m + r]? = (f q)[r]? := by
  intro n
  induction n with
  | zero => intro q r hq _; exact absurd hq (Nat.not_lt_zero q)
  | succ n ih =>
    intro q r hq hr
    rw [List.range_succ, List.flatMap_append]
    rcases Nat.lt_or_ge q n with hqn | hqn
    · rw [List.getElem?_append]
      rw [if_pos]
      · exact ih q r hqn hr
      · rw [flatMap_range_length f n m hf]
        calc q * m + r < q * m + m := by omega
          _ = (q + 1) * m := by ring
          _ ≤ n * m := Nat.mul_le_mul_right m hqn
    · have hqe : q = n := by omega
      subst hqe
      rw [List.getElem?_append_right (by rw [flatMap_range_length f q m hf]; omega)]
      rw [flatMap_range_length f q m hf]
      have hidx : q * m + r - q * m = r := by omega
      rw [hidx]
      simp

/-! ## Structural lemmas about generateAnchors -/

/-- With at least three ratios, generateAnchors succeeds and produces
rows * (cols * 3) boxes, where rows and cols are the iteration counts of
the two loops. -/
lemma generateAnchors_length (scales : ℤ) (r0 r1 r2 : ℝ) (rest : List ℝ)
    (shape : ℚ × ℚ) (fs a : ℤ) :
    ∃ L, generateAnchors scales (r0 :: r1 :: r2 :: rest) shape fs a = some L ∧
      L.length = loopCount shape.1 (a : ℚ) * (loopCount shape.2 (a : ℚ) * 3) := by
  refine ⟨_, rfl, ?_⟩
  apply flatMap_range_length
  intro jn
  apply flatMap_range_length
  intro im
  simp

/-- Positional layout of generateAnchors: the box at flat position
(jn * cols + im) * 3 + k is the anchor of cell (jn, im) at the k-th
ratio. -/
lemma generateAnchors_getElem? (scales : ℤ) (r0 r1 r2 : ℝ) (rest : List ℝ)
    (shape : ℚ × ℚ) (fs a : ℤ) (L : List Box)
    (hL : generateAnchors scales (r0 :: r1 :: r2 :: rest) shape fs a = some L)
    (jn im k : ℕ) (hj : jn < loopCount shape.1 (a : ℚ))
    (hi : im < loopCount shape.2 (a : ℚ)) (hk : k < 3) :
    L[(jn * loopCount shape.2 (a : ℚ) + im) * 3 + k]? =
      some (anchorBox scales ([r0, r1, r2].get ⟨k, by simpa using hk⟩) fs
        ((jn : ℝ) * (a : ℝ)) ((im : ℝ) * (a : ℝ))) := by
  have hLdef := Option.some.inj hL.symm
  subst hLdef
  have hidx : (jn * loopCount shape.2 (a : ℚ) + im) * 3 + k =
      jn * (loopCount shape.2 (a : ℚ) * 3) + (im * 3 + k) := by ring
  rw [hidx]
  rw [flatMap_range_getElem? _ (loopCount shape.2 (a : ℚ) * 3)
    (fun i => flatMap_range_length _ _ 3 (fun _ => by simp))
    (loopCount shape.1 (a : ℚ)) jn (im * 3 + k) hj (by omega)]
  rw [flatMap_range_getElem? _ 3 (fun _ => by simp)
    (loopCount shape.2 (a : ℚ)) im k hi hk]
  interval_cases k <;> simp

/-- Every box generateAnchors emits is the anchorBox of one of the first
three ratios at some pair of loop counter values. -/
lemma generateAnchors_mem (scales : ℤ) (r0 r1 r2 : ℝ) (rest : List ℝ)
    (shape : ℚ × ℚ) (fs a : ℤ) (L : List Box)
    (hL : generateAnchors scales (r0 :: r1 :: r2 :: rest) shape fs a = some L)
    (b : Box) (hb : b ∈ L) :
    ∃ r ∈ [r0, r1, r2], ∃ jn im : ℕ,
      b = anchorBox scales r fs ((jn : ℝ) * (a : ℝ)) ((im : ℝ) * (a : ℝ)) := by
  have hLdef := Option.some.inj hL.symm
  subst hLdef
  simp only [List.mem_flatMap, List.mem_map, List.mem_range] at hb
  obtain ⟨jn, -, im, -, r, hr, rfl⟩ := hb
  exact ⟨r, by simpa using hr, jn, im, rfl⟩

/-- generatePyramidAnchors on a non-empty configuration is the anchors of
the first level followed by the anchors of the remaining levels. -/
lemma generatePyramidAnchors_cons (s : ℤ) (srest : List ℤ) (ratios : List ℝ)
    (sh : ℚ × ℚ) (shrest : List (ℚ × ℚ)) (st : ℤ) (strest : List ℤ) (a : ℤ)
    (L : List Box)
    (h : generatePyramidAnchors (s :: srest) ratios (sh :: shrest) (st :: strest) a =
      some L) :
    ∃ L0 L1, generateAnchors s ratios sh st a = some L0 ∧
      generatePyramidAnchors srest ratios shrest strest a = some L1 ∧
      L = L0 ++ L1 := by
  cases hga : generateAnchors s ratios sh st a with
  | none =>
    rw [generatePyramidAnchors, hga] at h
    simp at h
  | some L0 =>
    cases hpa : generatePyramidAnchors srest ratios shrest strest a with
    | none =>
      rw [generatePyramidAnchors, hga, hpa] at h
      simp at h
    | some L1 =>
      rw [generatePyramidAnchors, hga, hpa] at h
      simp only [Option.bind_eq_bind, Option.some_bind, Option.pure_def,
        Option.some.injEq] at h
      exact ⟨L0, L1, rfl, rfl, h.symm⟩

/-- generatePyramidAnchors succeeds whenever the three parallel lists have
equal length and there are at least three ratios, and its total length is
the sum over levels of the per-level counts. -/
lemma generatePyramidAnchors_length (r0 r1 r2 : ℝ) (rest : List ℝ) :
    ∀ (scales : List ℤ) (shapes : List (ℚ × ℚ)) (strides : List ℤ) (a : ℤ),
      scales.length = shapes.length → scales.length = strides.length →
      ∃ L, generatePyramidAnchors scales (r0 :: r1 :: r2 :: rest) shapes strides a =
          some L ∧
        L.length =
          (shapes.map fun sh =>
            loopCount sh.1 (a : ℚ) * (loopCount sh.2 (a : ℚ) * 3)).sum := by
  intro scales
  induction scales with
  | nil =>
    intro shapes strides a hsh hst
    cases shapes with
    | nil => exact ⟨[], rfl, by simp⟩
    | cons _ _ => simp at hsh
  | cons s srest ih =>
    intro shapes strides a hsh hst
    cases shapes with
    | nil => simp at hsh
    | cons sh shrest =>
      cases strides with
      | nil => simp at hst
      | cons st strest =>
        obtain ⟨L0, hL0, hlen0⟩ :=
          generateAnchors_length s r0 r1 r2 rest sh st a
        obtain ⟨L1, hL1, hlen1⟩ := ih shrest strest a
          (by simpa using hsh) (by simpa using hst)
        refine ⟨L0 ++ L1, ?_, ?_⟩
        · rw [generatePyramidAnchors, hL0, hL1]
          rfl
        · simp [hlen0, hlen1]

/-- An integral bound with step 1 runs the loop exactly that many times. -/
lemma loopCount_intCast_one (z : ℤ) : loopCount ((z : ℤ) : ℚ) 1 = z.toNat := by
  rw [loopCount, if_pos (by norm_num : (0:ℚ) < 1), div_one, Int.ceil_intCast]

/-- A bound of at least 1 with step 1 makes the loop run at least once. -/
lemma loopCount_pos (bound : ℚ) (h : 1 ≤ bound) : 0 < loopCount bound 1 := by
  rw [loopCount, if_pos (by norm_num : (0:ℚ) < 1), div_one]
  have hc : (1 : ℤ) ≤ ⌈bound⌉ := by
    exact_mod_cast Int.le_ceil_iff.mpr (by norm_num; linarith)
  omega

/-! ## Claim theorems -/

/-- C4: composeImageMeta returns a vector of length exactly
12 + numClasses, whose first 12 fields are, in order, image id, original
height, original width, 3, resized height, resized width, 3, window y1,
window x1, window y2, window x2 and scale; every class-activity entry is
zero; and the first 12 fields do not depend on numClasses. -/
theorem composeImageMeta_spec (imageID : ℤ) (ob rb w : Rect) (scale : ℚ)
    (numClasses : ℕ) :
    (composeImageMeta imageID ob rb w scale numClasses).length = 12 + numClasses ∧
    (composeImageMeta imageID ob rb w scale numClasses).take 12 =
      [(imageID : ℚ), (ob.dy : ℚ), (ob.dx : ℚ), 3, (rb.dy : ℚ), (rb.dx : ℚ), 3,
       (w.minY : ℚ), (w.minX : ℚ), (w.maxY : ℚ), (w.maxX : ℚ), scale] ∧
    (∀ k, k < numClasses →
      (composeImageMeta imageID ob rb w scale numClasses)[12 + k]? = some 0) ∧
    (∀ n : ℕ, (composeImageMeta imageID ob rb w scale n).take 12 =
      (composeImageMeta imageID ob rb w scale numClasses).take 12) := by
  refine ⟨by simp [composeImageMeta]; omega, ?_, ?_, ?_⟩
  · simp [composeImageMeta]
  · intro k hk
    rw [composeImageMeta, List.getElem?_append_right (by simp)]
    simp [hk]
  · intro n
    simp [composeImageMeta]

/-- Witness for C4 at the round-trip scenario of the spec: a 600 by 400
image resized to 800 by 800, 81 classes, with class entry 5 checked. -/
theorem composeImageMeta_spec_witness :
    5 < 81 ∧
    (composeImageMeta 0 ⟨0, 0, 600, 400⟩ ⟨0, 0, 800, 800⟩ ⟨0, 0, 800, 800⟩ 2 81)[12 + 5]? =
      some 0 :=
  ⟨by decide,
   (composeImageMeta_spec 0 ⟨0, 0, 600, 400⟩ ⟨0, 0, 800, 800⟩ ⟨0, 0, 800, 800⟩ 2 81).2.2.1
     5 (by decide)⟩

/-- C5: the Scheme A pixel normalizer maps 0 to -1 and 255 * 256 to
exactly 1, and is monotone non-decreasing over its input range. -/
theorem convert_spec :
    convert 0 = -1 ∧ convert (255 * 256) = 1 ∧
    ∀ a b : ℕ, a ≤ b → convert a ≤ convert b := by
  refine ⟨by norm_num [convert],
    by norm_num [convert, Nat.shiftRight_eq_div_pow], ?_⟩
  intro a b hab
  unfold convert
  have h : (a >>> 8 : ℕ) ≤ (b >>> 8 : ℕ) := by
    simp only [Nat.shiftRight_eq_div_pow]
    exact Nat.div_le_div_right hab
  have hq : ((a >>> 8 : ℕ) : ℚ) ≤ ((b >>> 8 : ℕ) : ℚ) := by exact_mod_cast h
  exact div_le_div_of_nonneg_right (by linarith) (by norm_num)

/-- Witness for C5: monotonicity exercised at 3 and 1000. -/
theorem convert_spec_witness :
    convert 0 = -1 ∧ (3 : ℕ) ≤ 1000 ∧ convert 3 ≤ convert 1000 :=
  ⟨convert_spec.1, by decide, convert_spec.2.2 3 1000 (by decide)⟩

/-- C6: Scheme B emits, for every pixel of the 224 by 224 grid, the
channels in (blue, green, red) order with the per-channel means
103.939, 116.779 and 123.68 subtracted from the 8-bit channel values. -/
theorem imageToTensorCaffe_spec (img : ℕ → ℕ → ℕ × ℕ × ℕ) (i j : ℕ)
    (hi : i < 224) (hj : j < 224) :
    ((imageToTensorCaffe img)[i]?.bind fun row => row[j]?) =
      some (convertCaffe (img i j).2.2 - 103.939,
            convertCaffe (img i j).2.1 - 116.779,
            convertCaffe (img i j).1 - 123.68) := by
  unfold imageToTensorCaffe
  rw [List.getElem?_map, List.getElem?_range hi]
  simp only [Option.map_some', Option.some_bind]
  rw [List.getElem?_map, List.getElem?_range hj]
  rfl

/-- Witness for C6 at pixel (0, 0) of a constant image with samples
(r, g, b) = (256, 512, 768). -/
theorem imageToTensorCaffe_spec_witness :
    (0 : ℕ) < 224 ∧
    ((imageToTensorCaffe fun _ _ => (256, 512, 768))[0]?.bind fun row => row[0]?) =
      some (convertCaffe 768 - 103.939, convertCaffe 512 - 116.779,
            convertCaffe 256 - 123.68) :=
  ⟨by decide,
   imageToTensorCaffe_spec (fun _ _ => (256, 512, 768)) 0 0 (by decide) (by decide)⟩

/-- C10: generateAnchors reads only the first three ratios: fewer than
three ratios is an out-of-range read (none); ratios past the third do
not change the result; and with at least three ratios each visited cell
contributes exactly 3 anchors, giving rows * (cols * 3) boxes. -/
theorem generateAnchors_ratios_spec :
    (∀ (scales : ℤ) (ratios : List ℝ) (shape : ℚ × ℚ) (fs a : ℤ),
      ratios.length < 3 → generateAnchors scales ratios shape fs a = none) ∧
    (∀ (scales : ℤ) (r0 r1 r2 : ℝ) (rest rest2 : List ℝ) (shape : ℚ × ℚ) (fs a : ℤ),
      generateAnchors scales (r0 :: r1 :: r2 :: rest) shape fs a =
        generateAnchors scales (r0 :: r1 :: r2 :: rest2) shape fs a) ∧
    (∀ (scales : ℤ) (r0 r1 r2 : ℝ) (rest : List ℝ) (shape : ℚ × ℚ) (fs a : ℤ),
      ∃ L, generateAnchors scales (r0 :: r1 :: r2 :: rest) shape fs a = some L ∧
        L.length = loopCount shape.1 (a : ℚ) * (loopCount shape.2 (a : ℚ) * 3)) := by
  refine ⟨?_, ?_, ?_⟩
  · intro scales ratios shape fs a h
    match ratios with
    | [] => rfl
    | [_] => rfl
    | [_, _] => rfl
    | _ :: _ :: _ :: _ => exact absurd h (by simp)
  · intro scales r0 r1 r2 rest rest2 shape fs a
    rfl
  · intro scales r0 r1 r2 rest shape fs a
    exact generateAnchors_length scales r0 r1 r2 rest shape fs a

/-- Witness for C10: a one-ratio slice is rejected, a fourth ratio is
ignored, and a 2 by 2 feature map at stride 1 yields 12 anchors. -/
theorem generateAnchors_ratios_spec_witness :
    ([(1 : ℝ)].length < 3 ∧ generateAnchors 32 [(1 : ℝ)] (2, 2) 4 1 = none) ∧
    generateAnchors 32 [0.5, 1, 2, 99] (2, 2) 4 1 =
      generateAnchors 32 [0.5, 1, 2] (2, 2) 4 1 ∧
    (∃ L, generateAnchors 32 [0.5, 1, 2] (2, 2) 4 1 = some L ∧
      L.length = loopCount 2 1 * (loopCount 2 1 * 3)) :=
  ⟨⟨by simp, generateAnchors_ratios_spec.1 32 [(1 : ℝ)] (2, 2) 4 1 (by simp)⟩,
   generateAnchors_ratios_spec.2.1 32 0.5 1 2 [99] [] (2, 2) 4 1,
   by
     have h := generateAnchors_ratios_spec.2.2 32 0.5 1 2 [] (2, 2) 4 1
     simpa using h⟩

/-- C9: the anchor-generation loop terminates for every step of at least
1 (any bound), never terminates for a non-positive step with a positive
bound, and when it terminates with step at least 1 the visited counter
values are exactly the values generateAnchors iterates over. -/
theorem generateAnchors_loop_termination :
    (∀ (bound : ℚ) (d : ℤ), 1 ≤ d →
      ∃ fuel js, loopVals bound (d : ℚ) 0 fuel = some js) ∧
    (∀ (bound : ℚ) (d : ℤ), d ≤ 0 → 0 < bound →
      ∀ fuel, loopVals bound (d : ℚ) 0 fuel = none) ∧
    (∀ (bound : ℚ) (d : ℤ), 1 ≤ d → ∀ fuel js,
      loopVals bound (d : ℚ) 0 fuel = some js →
      js = (List.range (loopCount bound (d : ℚ))).map fun n : ℕ => (n : ℚ) * (d : ℚ)) := by
  refine ⟨?_, ?_, ?_⟩
  · intro bound d hd
    obtain ⟨n, hn⟩ := exists_nat_ge bound
    have hd1 : (1 : ℚ) ≤ (d : ℚ) := by exact_mod_cast hd
    obtain ⟨js, hjs⟩ := loopVals_total bound (d : ℚ) n 0
      (by
        have : (n : ℚ) * 1 ≤ (n : ℚ) * (d : ℚ) :=
          mul_le_mul_of_nonneg_left hd1 (by positivity)
        nlinarith)
    exact ⟨n, js, hjs⟩
  · intro bound d hd hb fuel
    exact loopVals_none bound (d : ℚ) (by exact_mod_cast hd) hb fuel 0 le_rfl
  · intro bound d hd fuel js h
    have hdpos : (0 : ℚ) < (d : ℚ) := by
      have : (1 : ℚ) ≤ (d : ℚ) := by exact_mod_cast hd
      linarith
    have h0 : loopVals bound (d : ℚ) (((0 : ℕ) : ℚ) * (d : ℚ)) fuel = some js := by
      simpa using h
    have hr := loopVals_eq_range bound (d : ℚ) hdpos fuel 0 js h0
    simp only [Nat.sub_zero, Nat.zero_add] at hr
    exact hr

/-- Witness for C9: with bound 3 the loop terminates at step 1 and runs
forever at step 0; the terminating run at fuel 5 visits 0, 1, 2. -/
theorem generateAnchors_loop_termination_witness :
    (1 : ℤ) ≤ 1 ∧
    (∃ fuel js, loopVals 3 ((1 : ℤ) : ℚ) 0 fuel = some js) ∧
    ((0 : ℤ) ≤ 0 ∧ (0 : ℚ) < 3 ∧ ∀ fuel, loopVals 3 ((0 : ℤ) : ℚ) 0 fuel = none) ∧
    ([0, 1, 2] : List ℚ) =
      ((List.range (loopCount 3 ((1 : ℤ) : ℚ))).map fun n : ℕ => (n : ℚ) * ((1 : ℤ) : ℚ)) :=
  ⟨le_rfl,
   generateAnchors_loop_termination.1 3 1 le_rfl,
   ⟨le_rfl, by norm_num,
    fun fuel => generateAnchors_loop_termination.2.1 3 0 le_rfl (by norm_num) fuel⟩,
   generateAnchors_loop_termination.2.2 3 1 le_rfl 5 [0, 1, 2] (by norm_num [loopVals])⟩

/-- C8: for a non-negative scale and positive ratios, every box the
generator emits satisfies y1 ≤ y2 and x1 ≤ x2, by construction of the
box formula. -/
theorem anchorBoxes_wellFormed (scales : ℤ) (ratios : List ℝ) (shape : ℚ × ℚ)
    (fs a : ℤ) (L : List Box)
    (hs : 0 ≤ scales) (hr : ∀ r ∈ ratios, 0 < r)
    (hL : generateAnchors scales ratios shape fs a = some L) :
    ∀ b ∈ L, b.1 ≤ b.2.2.1 ∧ b.2.1 ≤ b.2.2.2 := by
  match ratios, hr with
  | [], _ => cases hL
  | [_], _ => cases hL
  | [_, _], _ => cases hL
  | r0 :: r1 :: r2 :: rest, hr =>
    intro b hb
    obtain ⟨r, hrmem, jn, im, rfl⟩ :=
      generateAnchors_mem scales r0 r1 r2 rest shape fs a L hL b hb
    have hrpos : 0 < r := by
      apply hr
      simp only [List.mem_cons] at hrmem ⊢
      tauto
    have hs' : (0 : ℝ) ≤ (scales : ℝ) := by exact_mod_cast hs
    have hsq : (0 : ℝ) ≤ Real.sqrt r := Real.sqrt_nonneg r
    have hh : (0 : ℝ) ≤ (scales : ℝ) / Real.sqrt r := div_nonneg hs' hsq
    have hw : (0 : ℝ) ≤ (scales : ℝ) * Real.sqrt r := mul_nonneg hs' hsq
    constructor <;> simp only [anchorBox] <;> linarith

/-- Witness for C8 on a 1 by 1 feature map at scale 32, stride 4. -/
theorem anchorBoxes_wellFormed_witness :
    (0 : ℤ) ≤ 32 ∧ (∀ r ∈ ([0.5, 1, 2] : List ℝ), 0 < r) ∧
    ∃ L, generateAnchors 32 [0.5, 1, 2] (1, 1) 4 1 = some L ∧
      ∀ b ∈ L, b.1 ≤ b.2.2.1 ∧ b.2.1 ≤ b.2.2.2 := by
  refine ⟨by decide, by intro r hrm; fin_cases hrm <;> norm_num, ?_⟩
  obtain ⟨L, hL, -⟩ := generateAnchors_length 32 0.5 1 2 [] (1, 1) 4 1
  exact ⟨L, hL, anchorBoxes_wellFormed 32 [0.5, 1, 2] (1, 1) 4 1 L (by decide)
    (by intro r hrm; fin_cases hrm <;> norm_num) hL⟩

/-- C7 counterexample: at the non-positive scale -32 the anchor generator
does not reject the configuration; it runs and returns an anchor list. -/
theorem generateAnchors_accepts_negative_scale :
    generateAnchors (-32) [0.5, 1, 2] (1, 1) 4 1 ≠ none := by
  simp [generateAnchors]

/-- C7 amended: the generator performs no validation of its
configuration. A negative scale is silently accepted and produces
degenerate boxes with y2 < y1 on any non-empty feature map, and a
non-positive anchor stride does not produce an error either: the
generation loop simply never terminates when the bound is positive. -/
theorem generateAnchors_nonpositive_config (s : ℤ) (r0 r1 r2 : ℝ) (rest : List ℝ)
    (shape : ℚ × ℚ) (fs : ℤ)
    (hs : s < 0) (hr0 : 0 < r0) (h1 : 1 ≤ shape.1) (h2 : 1 ≤ shape.2) :
    (∃ L, generateAnchors s (r0 :: r1 :: r2 :: rest) shape fs 1 = some L ∧
      ∃ b ∈ L, b.2.2.1 < b.1) ∧
    (∀ (bound : ℚ) (d : ℤ), d ≤ 0 → 0 < bound →
      ∀ fuel, loopVals bound (d : ℚ) 0 fuel = none) := by
  constructor
  · obtain ⟨L, hL, -⟩ := generateAnchors_length s r0 r1 r2 rest shape fs 1
    refine ⟨L, hL, ?_⟩
    have hj : 0 < loopCount shape.1 ((1 : ℤ) : ℚ) := by
      rw [Int.cast_one]; exact loopCount_pos shape.1 h1
    have hi : 0 < loopCount shape.2 ((1 : ℤ) : ℚ) := by
      rw [Int.cast_one]; exact loopCount_pos shape.2 h2
    have hget := generateAnchors_getElem? s r0 r1 r2 rest shape fs 1 L hL
      0 0 0 hj hi (by norm_num)
    simp only [Nat.zero_mul, Nat.add_zero, Nat.mul_zero, Nat.zero_add] at hget
    refine ⟨_, List.getElem?_mem hget, ?_⟩
    have hs' : ((s : ℤ) : ℝ) < 0 := by exact_mod_cast hs
    have hsq : (0 : ℝ) < Real.sqrt r0 := Real.sqrt_pos.mpr hr0
    have hneg : (s : ℝ) / Real.sqrt r0 < 0 := div_neg_of_neg_of_pos hs' hsq
    simp only [anchorBox, List.get]
    linarith
  · intro bound d hd hb fuel
    exact loopVals_none bound (d : ℚ) (by exact_mod_cast hd) hb fuel 0 le_rfl

/-- Witness for the amended C7 at scale -32, ratios (0.5, 1, 2), a 1 by 1
feature map and feature stride 4. -/
theorem generateAnchors_nonpositive_config_witness :
    ((-32 : ℤ) < 0 ∧ (0 : ℝ) < 0.5 ∧ (1 : ℚ) ≤ 1) ∧
    (∃ L, generateAnchors (-32) [0.5, 1, 2] (1, 1) 4 1 = some L ∧
      ∃ b ∈ L, b.2.2.1 < b.1) :=
  ⟨⟨by decide, by norm_num, le_rfl⟩,
   (generateAnchors_nonpositive_config (-32) 0.5 1 2 [] (1, 1) 4
     (by decide) (by norm_num) le_rfl le_rfl).1⟩

/-- C1 (documenting the defect): for the 800 by 800 resized bounds the
orchestrator passes a single-row window tensor as input_anchors, while
the pyramid anchor generator on the same bounds yields 159882 anchor
rows; the third tensor of makeInputs is therefore not the pyramid anchor
set of getAnchors. -/
theorem makeInputs_window_not_anchors :
    (makeInputsAnchorsTensor ⟨0, 0, 800, 800⟩).length = 1 ∧
    ∃ L, getAnchors ⟨0, 0, 800, 800⟩ = some L ∧ L.length = 159882 ∧
      (makeInputsAnchorsTensor ⟨0, 0, 800, 800⟩).length ≠ L.length := by
  refine ⟨rfl, ?_⟩
  obtain ⟨L, hL, hlen⟩ := generatePyramidAnchors_length 0.5 1 2 []
    [32, 64, 128, 256, 512]
    (computeBackboneShapes ⟨0, 0, 800, 800⟩ [4, 8, 16, 32, 64])
    [4, 8, 16, 32, 64] 1 (by simp [computeBackboneShapes]) rfl
  have hsh : computeBackboneShapes ⟨0, 0, 800, 800⟩ [4, 8, 16, 32, 64] =
      [(200, 200), (100, 100), (50, 50), (25, 25), (13, 13)] := by
    norm_num [computeBackboneShapes, Rect.dx, Rect.dy, Int.ceil_eq_iff]
    norm_cast
    norm_num [Int.ceil_eq_iff]
  have hcount : L.length = 159882 := by
    rw [hlen, hsh]
    norm_num [loopCount, Int.ceil_eq_iff]
    decide
  exact ⟨L, hL, hcount, by rw [hcount]; decide⟩

/-- C3: with anchor stride 1, the pyramid generator run on the backbone
shapes of an image emits, in total, the sum over the configured strides s
of ceil(H / s) * ceil(W / s) * 3 anchors, H and W the bounds height and
width. -/
theorem pyramidAnchorCount (b : Rect) (strides scales : List ℤ)
    (r0 r1 r2 : ℝ) (rest : List ℝ)
    (hlen : scales.length = strides.length) :
    ∃ L, generatePyramidAnchors scales (r0 :: r1 :: r2 :: rest)
        (computeBackboneShapes b strides) strides 1 = some L ∧
      L.length = (strides.map fun s : ℤ =>
        ⌈(b.dy : ℚ) / (s : ℚ)⌉.toNat * (⌈(b.dx : ℚ) / (s : ℚ)⌉.toNat * 3)).sum := by
  have hshlen : (computeBackboneShapes b strides).length = strides.length := by
    rw [computeBackboneShapes, List.length_map]
  obtain ⟨L, hL, hlen2⟩ := generatePyramidAnchors_length r0 r1 r2 rest scales
    (computeBackboneShapes b strides) strides 1
    (hlen.trans hshlen.symm) hlen
  refine ⟨L, hL, ?_⟩
  rw [hlen2, computeBackboneShapes, List.map_map]
  apply congrArg
  apply List.map_congr_left
  intro s _
  simp only [Function.comp_apply, Int.cast_one]
  rw [loopCount_intCast_one, loopCount_intCast_one]

/-- Witness for C3 at 1024 by 1024 bounds with the default strides and
scales; the stride-4 level contributes 256 * 256 * 3 = 196608 anchors. -/
theorem pyramidAnchorCount_witness :
    ([32, 64, 128, 256, 512] : List ℤ).length = ([4, 8, 16, 32, 64] : List ℤ).length ∧
    (∃ L, generatePyramidAnchors [32, 64, 128, 256, 512] (0.5 :: 1 :: 2 :: [])
        (computeBackboneShapes ⟨0, 0, 1024, 1024⟩ [4, 8, 16, 32, 64])
        [4, 8, 16, 32, 64] 1 = some L ∧
      L.length = (([4, 8, 16, 32, 64] : List ℤ).map fun s : ℤ =>
        ⌈((Rect.dy ⟨0, 0, 1024, 1024⟩ : ℤ) : ℚ) / (s : ℚ)⌉.toNat *
          (⌈((Rect.dx ⟨0, 0, 1024, 1024⟩ : ℤ) : ℚ) / (s : ℚ)⌉.toNat * 3)).sum) ∧
    ⌈(1024 : ℚ) / 4⌉.toNat * (⌈(1024 : ℚ) / 4⌉.toNat * 3) = 196608 :=
  ⟨rfl,
   pyramidAnchorCount ⟨0, 0, 1024, 1024⟩ [4, 8, 16, 32, 64] [32, 64, 128, 256, 512]
     0.5 1 2 [] rfl,
   by norm_num [Int.ceil_eq_iff]; decide⟩

/-! ## Numeric facts for the first-cell anchors of the pipeline -/

/-- Rational bounds for the square root of 2. -/
lemma sqrt_two_bounds : 1.41421 < Real.sqrt 2 ∧ Real.sqrt 2 < 1.41422 := by
  constructor
  · rw [Real.lt_sqrt (by norm_num : (0:ℝ) ≤ 1.41421)]
    norm_num
  · rw [Real.sqrt_lt' (by norm_num : (0:ℝ) < 1.41422)]
    norm_num

/-- The square root of one half in terms of the square root of 2. -/
lemma sqrt_half : Real.sqrt 0.5 = Real.sqrt 2 / 2 := by
  have hne : Real.sqrt 2 ≠ 0 :=
    ne_of_gt (Real.sqrt_pos.mpr (by norm_num))
  have h2 : Real.sqrt 2 * Real.sqrt 2 = 2 := Real.mul_self_sqrt (by norm_num)
  rw [show (0.5:ℝ) = 2⁻¹ by norm_num, Real.sqrt_inv]
  rw [eq_div_iff (by norm_num : (2:ℝ) ≠ 0)]
  field_simp

/-- The anchor at cell (0,0), scale 32, feature stride 4, ratio 0.5. -/
lemma anchorBox_cell0_half :
    anchorBox 32 0.5 4 0 0 =
      (-(16 * Real.sqrt 2), -(8 * Real.sqrt 2), 16 * Real.sqrt 2, 8 * Real.sqrt 2) := by
  have hne : Real.sqrt 2 ≠ 0 :=
    ne_of_gt (Real.sqrt_pos.mpr (by norm_num))
  have h2 : Real.sqrt 2 * Real.sqrt 2 = 2 := Real.mul_self_sqrt (by norm_num)
  have hk : (32:ℝ) / (Real.sqrt 2 / 2) = 32 * Real.sqrt 2 := by
    rw [div_eq_iff (div_ne_zero hne two_ne_zero)]
    linear_combination (-16 : ℝ) * h2
  simp only [anchorBox, sqrt_half, Prod.mk.injEq]
  push_cast
  refine ⟨?_, ?_, ?_, ?_⟩ <;> first
    | (rw [hk]; ring)
    | ring

/-- The anchor at cell (0,0), scale 32, feature stride 4, ratio 1. -/
lemma anchorBox_cell0_one :
    anchorBox 32 1 4 0 0 = (-16, -16, 16, 16) := by
  simp only [anchorBox, Real.sqrt_one, Prod.mk.injEq]
  push_cast
  norm_num

/-- The anchor at cell (0,0), scale 32, feature stride 4, ratio 2. -/
lemma anchorBox_cell0_two :
    anchorBox 32 2 4 0 0 =
      (-(8 * Real.sqrt 2), -(16 * Real.sqrt 2), 8 * Real.sqrt 2, 16 * Real.sqrt 2) := by
  have hne : Real.sqrt 2 ≠ 0 :=
    ne_of_gt (Real.sqrt_pos.mpr (by norm_num))
  have h2 : Real.sqrt 2 * Real.sqrt 2 = 2 := Real.mul_self_sqrt (by norm_num)
  have hk : (32:ℝ) / Real.sqrt 2 = 16 * Real.sqrt 2 := by
    rw [div_eq_iff hne]
    linear_combination (-16 : ℝ) * h2
  simp only [anchorBox, Prod.mk.injEq]
  push_cast
  refine ⟨?_, ?_, ?_, ?_⟩ <;> first
    | (rw [hk]; ring)
    | ring

/-- The first loop of a level runs at least once whenever the ceiling
argument is positive. -/
lemma loopCount_ceil_pos (x : ℚ) (hx : 0 < x) :
    0 < loopCount ((⌈x⌉ : ℤ) : ℚ) ((1:ℤ) : ℚ) := by
  rw [Int.cast_one, loopCount_intCast_one]
  have hc : 0 < ⌈x⌉ := Int.ceil_pos.mpr hx
  omega

/-- C2: the pyramid output is grouped level by level in the configured
scale order (the first level's block precedes the remaining levels);
within a level the anchors are laid out row-major over feature-map cells
with the three ratios consecutive, in configured order, at each cell;
and for the pipeline configuration (first level scale 32, feature stride
4) the first three anchors of the output are, to two decimal places,
(-22.63, -11.31, 22.63, 11.31), (-16, -16, 16, 16) and
(-11.31, -22.63, 11.31, 22.63), for every bounds with positive height
and width. -/
theorem anchorOrdering :
    (∀ (s : ℤ) (srest : List ℤ) (ratios : List ℝ) (sh : ℚ × ℚ)
       (shrest : List (ℚ × ℚ)) (st : ℤ) (strest : List ℤ) (a : ℤ) (L : List Box),
      generatePyramidAnchors (s :: srest) ratios (sh :: shrest) (st :: strest) a =
        some L →
      ∃ L0 L1, generateAnchors s ratios sh st a = some L0 ∧
        generatePyramidAnchors srest ratios shrest strest a = some L1 ∧
        L = L0 ++ L1) ∧
    (∀ (scales : ℤ) (r0 r1 r2 : ℝ) (rest : List ℝ) (shape : ℚ × ℚ) (fs a : ℤ)
       (L : List Box) (jn im k : ℕ),
      generateAnchors scales (r0 :: r1 :: r2 :: rest) shape fs a = some L →
      jn < loopCount shape.1 (a : ℚ) → im < loopCount shape.2 (a : ℚ) →
      ∀ hk : k < 3,
      L[(jn * loopCount shape.2 (a : ℚ) + im) * 3 + k]? =
        some (anchorBox scales ([r0, r1, r2].get ⟨k, by simpa using hk⟩) fs
          ((jn : ℝ) * (a : ℝ)) ((im : ℝ) * (a : ℝ)))) ∧
    (∀ b : Rect, 0 < b.dy → 0 < b.dx →
      ∃ L, getAnchors b = some L ∧
        (∃ b0, L[0]? = some b0 ∧
          |b0.1 + 22.63| ≤ (0.005 : ℝ) ∧ |b0.2.1 + 11.31| ≤ (0.005 : ℝ) ∧
          |b0.2.2.1 - 22.63| ≤ (0.005 : ℝ) ∧ |b0.2.2.2 - 11.31| ≤ (0.005 : ℝ)) ∧
        L[1]? = some ((-16, -16, 16, 16) : Box) ∧
        (∃ b2, L[2]? = some b2 ∧
          |b2.1 + 11.31| ≤ (0.005 : ℝ) ∧ |b2.2.1 + 22.63| ≤ (0.005 : ℝ) ∧
          |b2.2.2.1 - 11.31| ≤ (0.005 : ℝ) ∧ |b2.2.2.2 - 22.63| ≤ (0.005 : ℝ))) := by
  refine ⟨?_, ?_, ?_⟩
  · intro s srest ratios sh shrest st strest a L h
    exact generatePyramidAnchors_cons s srest ratios sh shrest st strest a L h
  · intro scales r0 r1 r2 rest shape fs a L jn im k hL hj hi hk
    exact generateAnchors_getElem? scales r0 r1 r2 rest shape fs a L hL jn im k hj hi hk
  · intro b hdy hdx
    obtain ⟨L, hL, -⟩ := generatePyramidAnchors_length 0.5 1 2 []
      [32, 64, 128, 256, 512] (computeBackboneShapes b [4, 8, 16, 32, 64])
      [4, 8, 16, 32, 64] 1 (by simp [computeBackboneShapes]) rfl
    obtain ⟨L0, L1, hL0, hL1, rfl⟩ :=
      generatePyramidAnchors_cons 32 [64, 128, 256, 512] [0.5, 1, 2]
        (((⌈(b.dy : ℚ) / ((4:ℤ) : ℚ)⌉ : ℤ) : ℚ), ((⌈(b.dx : ℚ) / ((4:ℤ) : ℚ)⌉ : ℤ) : ℚ))
        (computeBackboneShapes b [8, 16, 32, 64]) 4 [8, 16, 32, 64] 1 L hL
    have hdyq : (0 : ℚ) < (b.dy : ℚ) / ((4:ℤ) : ℚ) := by
      apply div_pos
      · exact_mod_cast hdy
      · norm_num
    have hdxq : (0 : ℚ) < (b.dx : ℚ) / ((4:ℤ) : ℚ) := by
      apply div_pos
      · exact_mod_cast hdx
      · norm_num
    have hj : 0 < loopCount ((⌈(b.dy : ℚ) / ((4:ℤ) : ℚ)⌉ : ℤ) : ℚ) ((1:ℤ) : ℚ) :=
      loopCount_ceil_pos _ hdyq
    have hi : 0 < loopCount ((⌈(b.dx : ℚ) / ((4:ℤ) : ℚ)⌉ : ℤ) : ℚ) ((1:ℤ) : ℚ) :=
      loopCount_ceil_pos _ hdxq
    obtain ⟨L0x, hL0x, hlenL0⟩ := generateAnchors_length 32 0.5 1 2 []
      (((⌈(b.dy : ℚ) / ((4:ℤ) : ℚ)⌉ : ℤ) : ℚ), ((⌈(b.dx : ℚ) / ((4:ℤ) : ℚ)⌉ : ℤ) : ℚ))
      4 1
    have hL0eq : L0x = L0 := Option.some.inj (hL0x.symm.trans hL0)
    subst hL0eq
    have hlen3 : 3 ≤ L0x.length := by
      rw [hlenL0]
      have h1 : 1 * (1 * 3) ≤
          loopCount ((⌈(b.dy : ℚ) / ((4:ℤ) : ℚ)⌉ : ℤ) : ℚ) ((1:ℤ) : ℚ) *
            (loopCount ((⌈(b.dx : ℚ) / ((4:ℤ) : ℚ)⌉ : ℤ) : ℚ) ((1:ℤ) : ℚ) * 3) :=
        Nat.mul_le_mul hj (Nat.mul_le_mul hi le_rfl)
      simpa using h1
    have happ : ∀ k, k < 3 → (L0x ++ L1)[k]? = L0x[k]? := by
      intro k hk
      exact List.getElem?_append_left (by omega)
    have hget := fun (k : ℕ) (hk : k < 3) =>
      generateAnchors_getElem? 32 0.5 1 2 []
        (((⌈(b.dy : ℚ) / ((4:ℤ) : ℚ)⌉ : ℤ) : ℚ), ((⌈(b.dx : ℚ) / ((4:ℤ) : ℚ)⌉ : ℤ) : ℚ))
        4 1 L0x hL0x 0 0 k hj hi hk
    have hidx : ∀ k : ℕ,
        (0 * loopCount ((⌈(b.dx : ℚ) / ((4:ℤ) : ℚ)⌉ : ℤ) : ℚ) ((1:ℤ) : ℚ) + 0) * 3 + k
          = k := by
      intro k; omega
    have h0 := hget 0 (by norm_num)
    have h1 := hget 1 (by norm_num)
    have h2 := hget 2 (by norm_num)
    rw [hidx 0] at h0
    rw [hidx 1] at h1
    rw [hidx 2] at h2
    simp only [List.get] at h0 h1 h2
    have hz : ((0 : ℕ) : ℝ) * ((1 : ℤ) : ℝ) = 0 := by norm_num
    rw [hz] at h0 h1 h2
    obtain ⟨hlow, hhigh⟩ := sqrt_two_bounds
    refine ⟨L0x ++ L1, hL, ?_, ?_, ?_⟩
    · refine ⟨anchorBox 32 0.5 4 0 0, by rw [happ 0 (by norm_num)]; exact h0, ?_, ?_, ?_, ?_⟩ <;>
        rw [anchorBox_cell0_half] <;>
        simp only [abs_le] <;>
        constructor <;> linarith
    · rw [happ 1 (by norm_num), h1, anchorBox_cell0_one]
    · refine ⟨anchorBox 32 2 4 0 0, by rw [happ 2 (by norm_num)]; exact h2, ?_, ?_, ?_, ?_⟩ <;>
        rw [anchorBox_cell0_two] <;>
        simp only [abs_le] <;>
        constructor <;> linarith

/-- Witness for C2: the level decomposition on a one-level pyramid, the
positional formula at cell (0,0) of a 1 by 1 feature map, and the first
three anchors for the 800 by 800 bounds. -/
theorem anchorOrdering_witness :
    (∃ L L0 L1, generatePyramidAnchors [32] [0.5, 1, 2] [((1:ℚ), (1:ℚ))] [4] 1 =
        some L ∧
      generateAnchors 32 [0.5, 1, 2] ((1:ℚ), (1:ℚ)) 4 1 = some L0 ∧
      generatePyramidAnchors ([] : List ℤ) [0.5, 1, 2] [] [] 1 = some L1 ∧
      L = L0 ++ L1) ∧
    (∃ L, generateAnchors 32 [0.5, 1, 2] ((1:ℚ), (1:ℚ)) 4 1 = some L ∧
      L[(0 * loopCount ((1:ℚ), (1:ℚ)).2 ((1:ℤ) : ℚ) + 0) * 3 + 0]? =
        some (anchorBox 32 (([0.5, 1, 2] : List ℝ).get ⟨0, by norm_num⟩) 4
          (((0:ℕ) : ℝ) * ((1:ℤ) : ℝ)) (((0:ℕ) : ℝ) * ((1:ℤ) : ℝ)))) ∧
    (0 < Rect.dy ⟨0, 0, 800, 800⟩ ∧ 0 < Rect.dx ⟨0, 0, 800, 800⟩ ∧
      ∃ L, getAnchors ⟨0, 0, 800, 800⟩ = some L ∧
        (∃ b0, L[0]? = some b0 ∧
          |b0.1 + 22.63| ≤ (0.005 : ℝ) ∧ |b0.2.1 + 11.31| ≤ (0.005 : ℝ) ∧
          |b0.2.2.1 - 22.63| ≤ (0.005 : ℝ) ∧ |b0.2.2.2 - 11.31| ≤ (0.005 : ℝ)) ∧
        L[1]? = some ((-16, -16, 16, 16) : Box) ∧
        (∃ b2, L[2]? = some b2 ∧
          |b2.1 + 11.31| ≤ (0.005 : ℝ) ∧ |b2.2.1 + 22.63| ≤ (0.005 : ℝ) ∧
          |b2.2.2.1 - 11.31| ≤ (0.005 : ℝ) ∧ |b2.2.2.2 - 22.63| ≤ (0.005 : ℝ))) := by
  refine ⟨?_, ?_, ?_⟩
  · obtain ⟨L, hL, -⟩ := generatePyramidAnchors_length 0.5 1 2 []
      [32] [((1:ℚ), (1:ℚ))] [4] 1 rfl rfl
    obtain ⟨L0, L1, h0, h1, he⟩ :=
      anchorOrdering.1 32 [] [0.5, 1, 2] ((1:ℚ), (1:ℚ)) [] 4 [] 1 L hL
    exact ⟨L, L0, L1, hL, h0, h1, he⟩
  · obtain ⟨L, hL, -⟩ := generateAnchors_length 32 0.5 1 2 [] ((1:ℚ), (1:ℚ)) 4 1
    refine ⟨L, hL, ?_⟩
    exact anchorOrdering.2.1 32 0.5 1 2 [] ((1:ℚ), (1:ℚ)) 4 1 L 0 0 0 hL
      (by rw [Int.cast_one]; exact loopCount_pos 1 le_rfl)
      (by rw [Int.cast_one]; exact loopCount_pos 1 le_rfl)
      (by norm_num)
  · exact ⟨by decide, by decide,
      anchorOrdering.2.2 ⟨0, 0, 800, 800⟩ (by decide) (by decide)⟩
